import Mathlib

/-!
# Case search front end: result extraction and document pipeline

A shallow embedding of `src/script.js` and of the `/proxy-pdf` handler of
`src/server.js`.

* JavaScript strings are sequences of characters (`Str`); the string methods and the
  regular expressions the script uses are written out as list functions.
* The parsed search response (the value of `DOMParser.parseFromString`) is a tree of
  `Node`s; `parseAndDisplayResults` works on that tree and on the content of the
  results grid.
* The document actions (`openPdfView`, the print and download click handlers,
  `addFooterToPdf`, `renderPDF`) are functions of the outside world (`Env`) that return
  the list of effects they perform, in order.
-/

namespace CaseSearch

/-! ## Strings -/

/-- A JavaScript string, as the sequence of its characters. -/
abbrev Str := List Char

/-- The characters matched by `\s` and removed by `String.prototype.trim`:
ECMAScript WhiteSpace and LineTerminator. -/
def isJsSpace (c : Char) : Bool :=
  let n := c.toNat
  n == 9 || n == 10 || n == 11 || n == 12 || n == 13 || n == 32 || n == 160 || n == 5760 ||
  (8192 ≤ n && n ≤ 8202) || n == 8232 || n == 8233 || n == 8239 || n == 8287 ||
  n == 12288 || n == 65279

/-- JavaScript `String.prototype.trim`. -/
def trim (s : Str) : Str :=
  ((s.dropWhile isJsSpace).reverse.dropWhile isJsSpace).reverse

/-- JavaScript `s.startsWith(pat)`. -/
def startsWith (s pat : Str) : Bool := pat.isPrefixOf s

/-- JavaScript `s.endsWith(pat)`. -/
def endsWith (s pat : Str) : Bool := pat.isSuffixOf s

/-- JavaScript `s.includes(pat)`. -/
def includes : Str → Str → Bool
  | [], pat => pat.isEmpty
  | c :: r, pat => pat.isPrefixOf (c :: r) || includes r pat

/-- JavaScript `s.indexOf(pat)`; `none` stands for `-1`. -/
def indexOf : Str → Str → Option Nat
  | [], pat => if pat.isEmpty then some 0 else none
  | c :: r, pat =>
    if pat.isPrefixOf (c :: r) then some 0 else (indexOf r pat).map (· + 1)

/-- JavaScript `s.substring(a, b)`: both indices are clamped to the length and swapped when
`a > b`. -/
def substring (s : Str) (a b : Nat) : Str :=
  let a1 := min a s.length
  let b1 := min b s.length
  (s.drop (min a1 b1)).take (max a1 b1 - min a1 b1)

/-- The lowercase form of one character. `A`..`Z` map to `a`..`z`; U+0130 maps to `i`
followed by U+0307 and U+212A (Kelvin sign) to `k`, the only other characters whose
lowercase form contains an ASCII character. Every remaining character is left as it
is: its lowercase form lies outside ASCII, and the script only searches lowercased
text for ASCII words. -/
def lowerChar (c : Char) : Str :=
  if c.toNat = 304 then [Char.ofNat 105, Char.ofNat 775]
  else if c.toNat = 8490 then [Char.ofNat 107]
  else [c.toLower]

/-- JavaScript `s.toLowerCase()`. -/
def toLowerCase : Str → Str
  | [] => []
  | c :: r => lowerChar c ++ toLowerCase r

/-! ## Regular expressions -/

/-- Character comparison under the `i` flag (no `u` flag): both sides are
canonicalized with the upper-case mapping, which never takes a non-ASCII character to
an ASCII one. The patterns of the script contain ASCII and Bengali characters only, so
the ASCII mapping decides every comparison. -/
def ciEq (p c : Char) : Bool := c.toUpper == p.toUpper

/-- Match the literal `pat` case-insensitively at the head of the text; the result is
the text that follows the match. -/
def matchLit : Str → Str → Option Str
  | [], s => some s
  | _ :: _, [] => none
  | p :: ps, c :: cs => if ciEq p c then matchLit ps cs else none

/-- The character class `["']`. -/
def isQuote (c : Char) : Bool := c.toNat == 34 || c.toNat == 39

/-- An optional trailing `["']?` (greedy; nothing follows it in the pattern). -/
def skipQuote : Str → Str
  | [] => []
  | q :: r => if isQuote q then r else q :: r

/-- The part `LABEL\s*\(Google\)["']?` of the noise pattern, matched at the head of the
text. `\s*` is greedy and the next pattern character `\(` is not white space, so
taking the whole run of white space is the only way to match. -/
def matchNoiseCore (label : Str) (s : Str) : Option Str :=
  match matchLit label s with
  | none => none
  | some r1 =>
    match matchLit "(Google)".toList (r1.dropWhile isJsSpace) with
    | none => none
    | some r2 => some (skipQuote r2)

/-- The pattern `/["']?LABEL\s*\(Google\)["']?/i` matched at the head of the text: the
leading quote is taken when present, and given back when the rest does not match
after it. -/
def matchNoise (label : Str) (s : Str) : Option Str :=
  match s with
  | [] => matchNoiseCore label []
  | q :: r =>
    if isQuote q then
      match matchNoiseCore label r with
      | some rest => some rest
      | none => matchNoiseCore label (q :: r)
    else matchNoiseCore label (q :: r)

/-- The word the first noise pattern looks for. -/
def bengaliLabel : Str := "অনুবাদ".toList

/-- The word the second noise pattern looks for. -/
def englishLabel : Str := "Translation".toList

/-- The pattern `\s{min,}` matched at the head of the text (greedy). -/
def matchSpaces (min : Nat) (s : Str) : Option Str :=
  let rest := s.dropWhile isJsSpace
  if min ≤ s.length - rest.length then some rest else none

/-- The patterns `/Uploaded on\s*[\:\-]?/i` and `/From\s*[\:\-]?/i` matched at the head
of the text. -/
def matchLabel (label : Str) (s : Str) : Option Str :=
  match matchLit label s with
  | none => none
  | some r1 =>
    match r1.dropWhile isJsSpace with
    | [] => some []
    | c :: r2 => if c == ':' || c == '-' then some r2 else some (c :: r2)

/-- A plain string used as the pattern of `replace`. -/
def matchExact (pat : Str) (s : Str) : Option Str :=
  if pat.isPrefixOf s then some (s.drop pat.length) else none

/-- JavaScript `s.replace(pattern, rep)` for a pattern without the `g` flag: the leftmost match is
replaced. -/
def replaceFirst (m : Str → Option Str) (rep : Str) : Str → Str
  | [] => match m [] with
    | some _ => rep
    | none => []
  | c :: r =>
    match m (c :: r) with
    | some rest => rep ++ rest
    | none => c :: replaceFirst m rep r

/-- The scan of `s.replace(pattern, rep)` for a pattern with the `g` flag. The number
is the count of characters still to be skipped because they belong to the match that
was just replaced. An empty match inserts `rep` and moves on by one character. -/
def replaceAllAux (m : Str → Option Str) (rep : Str) : Nat → Str → Str
  | _, [] => match m [] with
    | some _ => rep
    | none => []
  | k + 1, _ :: r => replaceAllAux m rep k r
  | 0, c :: r =>
    match m (c :: r) with
    | none => c :: replaceAllAux m rep 0 r
    | some rest =>
      match (c :: r).length - rest.length with
      | 0 => rep ++ c :: replaceAllAux m rep 0 r
      | n + 1 => rep ++ replaceAllAux m rep n r

/-- JavaScript `s.replace(pattern, rep)` for a pattern with the `g` flag. -/
def replaceAll (m : Str → Option Str) (rep : Str) (s : Str) : Str :=
  replaceAllAux m rep 0 s

/-- The helper `cleanText` (script.js 122-129): absent or empty text gives the empty
string; otherwise both noise patterns are removed, runs of two or more white-space
characters become one space, and the ends are trimmed. -/
def cleanText (text : Option Str) : Str :=
  match text with
  | none => []
  | some t =>
    if t.isEmpty then []
    else
      trim (replaceAll (matchSpaces 2) [' ']
        (replaceAll (matchNoise englishLabel) []
          (replaceAll (matchNoise bengaliLabel) [] t)))

/-- The split of the second cell's text into upload date and court (script.js
175-200). The argument is `caseInfoText`, already white-space collapsed by the
caller. -/
def splitComposite (caseInfoText : Str) : Str × Str :=
  let uploadIndex := indexOf caseInfoText "Uploaded on".toList
  let fromIndex := indexOf caseInfoText "From".toList
  let uploadedOn : Str :=
    match uploadIndex with
    | none => []
    | some u =>
      let endOfDate :=
        match fromIndex with
        | some f => f
        | none => caseInfoText.length
      let dateChunk := substring caseInfoText u endOfDate
      trim (replaceFirst (matchLabel "Uploaded on".toList) [] dateChunk)
  let fromCourt : Str :=
    match fromIndex with
    | none => []
    | some f =>
      let courtChunk := substring caseInfoText f caseInfoText.length
      trim (replaceFirst (matchLabel "From".toList) [] courtChunk)
  (cleanText (some uploadedOn), cleanText (some fromCourt))

/-- The URL resolution of script.js 142-149. -/
def resolveUrl (href : Str) : Str :=
  if !startsWith href "http".toList then
    if startsWith href "../".toList then
      "https://www.supremecourt.gov.bd/".toList ++ replaceFirst (matchExact "../".toList) [] href
    else
      "https://www.supremecourt.gov.bd/web/".toList ++ href
  else href

/-! ## The parsed search response -/

/-- A node of the parsed document: a text node, or an element with its tag name (lower
case, as the HTML parser leaves it), its attributes in source order and its children.
Comment nodes carry no text content and hold no elements, so they are left out. -/
inductive Node where
  | text (data : Str)
  | elem (tag : Str) (attrs : List (Str × Str)) (children : List Node)

/-- A table row as the script sees it through `link.closest('tr')`: `path` is the
position of the `tr` element in the tree (child indices from the element up to the
root), which tells two rows apart; `cells` holds the text content of each entry of
`row.cells`. The document comes from `DOMParser` and is never rendered, so `innerText`
is the same string as `textContent`. -/
structure Row where
  path : List Nat
  cells : List Str
deriving DecidableEq, Repr

/-- An anchor element as the script uses it: the `href` attribute, the text content and
the closest enclosing row. -/
structure Link where
  href : Option Str
  textContent : Str
  row : Option Row
deriving DecidableEq, Repr

mutual
/-- DOM `node.textContent`. -/
def textContent : Node → Str
  | .text data => data
  | .elem _ _ children => textContentList children
/-- The concatenated text content of a list of sibling nodes. -/
def textContentList : List Node → Str
  | [] => []
  | c :: cs => textContent c ++ textContentList cs
end

/-- DOM `row.cells`, as text: the `td` and `th` children of a `tr` element. -/
def cellsOf : List Node → List Str
  | [] => []
  | .text _ :: cs => cellsOf cs
  | .elem tag _ children :: cs =>
    if tag = "td".toList ∨ tag = "th".toList then textContentList children :: cellsOf cs
    else cellsOf cs

/-- DOM `element.getAttribute(name)`. -/
def getAttribute (attrs : List (Str × Str)) (name : Str) : Option Str :=
  match attrs with
  | [] => none
  | (k, v) :: rest => if k = name then some v else getAttribute rest name

mutual
/-- The anchors below a node in document order, each with its closest enclosing row:
`Array.from(doc.querySelectorAll('a'))` together with `link.closest('tr')`. -/
def collectLinks (path : List Nat) (row : Option Row) : Node → List Link
  | .text _ => []
  | .elem tag attrs children =>
    let row1 := if tag = "tr".toList then some ⟨path, cellsOf children⟩ else row
    (if tag = "a".toList then
        [⟨getAttribute attrs "href".toList, textContentList children, row1⟩]
      else []) ++ collectLinksList path row1 0 children
/-- The anchors below the siblings `i`, `i + 1`, ... of one parent. -/
def collectLinksList (path : List Nat) (row : Option Row) (i : Nat) : List Node → List Link
  | [] => []
  | c :: cs => collectLinks (i :: path) row c ++ collectLinksList path row (i + 1) cs
end

/-- The list `links` of script.js 103 for a document with the given root. -/
def links (doc : Node) : List Link := collectLinks [] none doc

/-! ## Result extraction -/

/-- The record behind one result card: the strings written into the card and the URL
its click handler passes to `openPdfView`. -/
structure CaseRecord where
  title : Str
  parties : Str
  uploadedOn : Str
  fromCourt : Str
  documentUrl : Str
deriving DecidableEq, Repr

/-- The filter that builds `validLinks` (script.js 108-111). -/
def isValidLink (link : Link) : Bool :=
  match link.href with
  | none => false
  | some href =>
    !href.isEmpty &&
      (endsWith (toLowerCase href) ".pdf".toList || includes (toLowerCase href) ".pdf".toList)

/-- The list `validLinks` of script.js 108. -/
def validLinks (doc : Node) : List Link := (links doc).filter isValidLink

/-- The test of the strict filter (script.js 134) on the trimmed anchor text. -/
def strictFilter (rawTitle : Str) : Bool :=
  includes rawTitle bengaliLabel ||
    (includes (toLowerCase rawTitle) "translation".toList &&
      includes (toLowerCase rawTitle) "google".toList)

/-- The string `caseInfoText` of script.js 172-173: the text of the second cell with
every run of white space replaced by one space, trimmed. -/
def caseInfoText (cellText : Str) : Str :=
  trim (replaceAll (matchSpaces 1) [' '] cellText)

/-- The body of `validLinks.forEach` (script.js 120-226) for one link: `none` when the
callback returns early, otherwise the record of the card it appends. A link of
`validLinks` always has an `href`; without one the script would stop with a
`TypeError`, and the model yields no record. The unused `uploadMatch` (line 178) and
the empty `if` of lines 203-207 have no effect and are left out. -/
def processLink (link : Link) : Option CaseRecord :=
  let rawTitle := trim link.textContent
  if strictFilter rawTitle then none
  else
    let title := cleanText (some rawTitle)
    if title.isEmpty then none
    else
      match link.href with
      | none => none
      | some href =>
        let pdfUrl := resolveUrl href
        match link.row with
        | none => none
        | some row =>
          if row.cells.length < 3 then none
          else
            let partiesRaw := if row.cells.length > 2 then row.cells.getD 2 [] else []
            let parties := cleanText (some partiesRaw)
            let fields := splitComposite (caseInfoText (row.cells.getD 1 []))
            some ⟨title, parties, fields.1, fields.2, pdfUrl⟩

/-- One child of the results grid: one of the two empty-state messages, or a card. -/
inductive GridItem where
  | noResults
  | noValidCards
  | card (record : CaseRecord)
deriving DecidableEq, Repr

/-- One step of `validLinks.forEach`: the state is the grid content and `count`. -/
def forEachStep (state : List GridItem × Nat) (link : Link) : List GridItem × Nat :=
  match processLink link with
  | none => state
  | some record => (state.1 ++ [GridItem.card record], state.2 + 1)

/-- The function `parseAndDisplayResults` (script.js 91-231) on the parsed document and
the current content of the results grid; the result is the new content of the grid.
`noResults` is the message 'No judgments found matching your criteria.' and
`noValidCards` is 'No valid cards found after filtering.'; writing `innerHTML` replaces
the whole content. -/
def parseAndDisplayResults (doc : Node) (grid : List GridItem) : List GridItem :=
  let valid := validLinks doc
  if valid.length = 0 then [GridItem.noResults]
  else
    let final := valid.foldl forEachStep (grid, 0)
    if final.2 = 0 then [GridItem.noValidCards] else final.1

/-- The grid after a search: the submit handler empties the grid (script.js 62) and
then calls `parseAndDisplayResults` on the parsed response. -/
def searchResultGrid (doc : Node) : List GridItem := parseAndDisplayResults doc []

/-- The records of the cards in a grid, in order. -/
def records : List GridItem → List CaseRecord
  | [] => []
  | GridItem.card r :: rest => r :: records rest
  | _ :: rest => records rest

/-- The spec's `extract`: the records shown after a search, in order. -/
def extract (doc : Node) : List CaseRecord := records (searchResultGrid doc)

/-! ## Document pipeline -/

/-- The content of an `ArrayBuffer`: a list of byte values. -/
abbrev Bytes := List Nat

/-- The string `headerStr` of script.js 284-285 and 353-354: the first five bytes, one
character per byte. -/
def headerStr (buffer : Bytes) : Str := (buffer.take 5).map (fun b => Char.ofNat (b % 256))

/-- The signature test `headerStr.startsWith('%PDF-')`. -/
def hasPdfHeader (buffer : Bytes) : Bool := startsWith (headerStr buffer) "%PDF-".toList

/-- What `fetch` resolves to: the `ok` flag (status 200-299), the `content-type` header
and the body. -/
structure Response where
  ok : Bool
  contentType : Option Str
  body : Bytes
deriving DecidableEq, Repr

/-- What happens when `addFooterToPdf` edits a buffer with PDFLib: one of the calls
`PDFDocument.load`, `embedFont`, `drawText`, `save` throws, or `save` returns bytes. -/
inductive PdfLibResult where
  | loadThrows
  | embedFontThrows
  | drawTextThrows
  | saveThrows
  | saved (bytes : Bytes)
deriving DecidableEq, Repr

/-- One page of a decoded document as pdf.js exposes it: the size of its viewport at
scale 1.5 and whether `page.render(...).promise` resolves. -/
structure PdfPage where
  width : Nat
  height : Nat
  renderOk : Bool
deriving DecidableEq, Repr

/-- A decoded document as pdf.js exposes it; `getPage n` is `none` when
`pdf.getPage(n)` rejects. -/
structure PdfDocument where
  numPages : Nat
  getPage : Nat → Option PdfPage

/-- The world outside the script. `fetch url` is `none` when the request fails and the
response otherwise; `pdfLib` is `none` when `PDFLib` is undefined; `getDocument` is the
pdf.js decoder applied to what the URL serves, `none` when loading rejects; `now` is
the clock in milliseconds. -/
structure Env where
  fetch : Str → Option Response
  pdfLib : Option (Bytes → PdfLibResult)
  getDocument : Response → Option PdfDocument
  now : Nat

/-- An observable effect of a document action. `alert` shows a message; `stamp` is a
call of `addFooterToPdf` on the buffer; `pdfjsLoad` is the buffer that
`pdfjsLib.getDocument` loads inside `renderPDF`; `print` and `download` hand the bytes
to the print frame and to the download link. -/
inductive Effect where
  | alert (message : Str)
  | stamp (buffer : Bytes)
  | pdfjsLoad (buffer : Bytes)
  | print (bytes : Bytes)
  | download (bytes : Bytes) (filename : Str)
deriving DecidableEq, Repr

/-- One child of the display area `#pdf-container`. -/
inductive ContainerItem where
  | loading
  | error
  | canvas (pageNum width height : Nat)
deriving DecidableEq, Repr

/-- The three views of `switchView`. -/
inductive View where
  | search
  | results
  | pdf
deriving DecidableEq, Repr

/-- The mutable state of the page: the two variables of script.js 25-26, the visible
view, the text of `#current-doc-title`, the display area and the results grid. -/
structure AppState where
  currentPdfUrl : Option Str
  currentPdfTitle : Str
  view : View
  docTitle : Str
  pdfContainer : List ContainerItem
  resultsGrid : List GridItem
deriving DecidableEq, Repr

/-- The state when the script has just been loaded. -/
def AppState.initial : AppState :=
  ⟨none, "Document.pdf".toList, View.search, [], [], []⟩

/-- The function `addFooterToPdf` (script.js 404-457). Every exception is caught, so
the function always returns a buffer. -/
def addFooterToPdf (env : Env) (pdfArrayBuffer : Bytes) : Bytes :=
  match env.pdfLib with
  | none => pdfArrayBuffer
  | some edit =>
    match edit pdfArrayBuffer with
    | PdfLibResult.saved savedBytes =>
      if savedBytes.length > 5 then
        if !startsWith (headerStr savedBytes) "%PDF-".toList then pdfArrayBuffer
        else savedBytes
      else savedBytes
    | _ => pdfArrayBuffer

/-- The loop of `renderPDF` (script.js 609-627) from page `pageNum` on, with `count`
pages left; `none` when a page fails to load or to render, which throws. The canvas is
appended before the rendering is awaited. -/
def renderLoop (pdf : PdfDocument) : Nat → Nat → List ContainerItem →
    Option (List ContainerItem)
  | 0, _, container => some container
  | count + 1, pageNum, container =>
    match pdf.getPage pageNum with
    | none => none
    | some page =>
      if page.renderOk then
        renderLoop pdf count (pageNum + 1)
          (container ++ [ContainerItem.canvas pageNum page.width page.height])
      else none

/-- The function `renderPDF` (script.js 599-632): the final content of the display area
and the effects. `pdfjsLib.getDocument(url)` loads what the URL serves. The first
statement replaces whatever the display area held by the loading placeholder, so the
result does not depend on the earlier content. The run is taken as a whole: no other
handler runs between its steps. -/
def renderPDF (env : Env) (url : Str) : List ContainerItem × List Effect :=
  match env.fetch url with
  | none => ([ContainerItem.error], [])
  | some response =>
    match env.getDocument response with
    | none => ([ContainerItem.error], [Effect.pdfjsLoad response.body])
    | some pdf =>
      match renderLoop pdf pdf.numPages 1 [] with
      | none => ([ContainerItem.error], [Effect.pdfjsLoad response.body])
      | some container => (container, [Effect.pdfjsLoad response.body])

/-- The digit of `n % 16` in upper-case hexadecimal. -/
def hexDigit (n : Nat) : Char :=
  if n % 16 < 10 then Char.ofNat (48 + n % 16) else Char.ofNat (55 + n % 16)

/-- The UTF-8 bytes of a character. -/
def utf8Bytes (c : Char) : List Nat :=
  let n := c.toNat
  if n < 128 then [n]
  else if n < 2048 then [192 + n / 64, 128 + n % 64]
  else if n < 65536 then [224 + n / 4096, 128 + n / 64 % 64, 128 + n % 64]
  else [240 + n / 262144, 128 + n / 4096 % 64, 128 + n / 64 % 64, 128 + n % 64]

/-- The characters `encodeURIComponent` leaves as they are. -/
def isUriUnreserved (c : Char) : Bool :=
  c.isAlphanum || "-_.!~*()".toList.contains c || c.toNat == 39

/-- JavaScript `encodeURIComponent(s)`. -/
def encodeURIComponent : Str → Str
  | [] => []
  | c :: r =>
    (if isUriUnreserved c then [c]
      else (utf8Bytes c).flatMap (fun b => ['%', hexDigit (b / 16), hexDigit b])) ++
      encodeURIComponent r

/-- The function `openPdfView` (script.js 234-248). -/
def openPdfView (env : Env) (st : AppState) (title url : Str) : AppState × List Effect :=
  let proxyUrl := "/proxy-pdf?url=".toList ++ encodeURIComponent url
  let rendered := renderPDF env proxyUrl
  (⟨some proxyUrl, if title.isEmpty then "Judgment".toList else title, View.pdf, title,
      rendered.1, st.resultsGrid⟩, rendered.2)

/-- The click handler of a result card (script.js 220-222). -/
def cardClick (env : Env) (st : AppState) (record : CaseRecord) : AppState × List Effect :=
  openPdfView env st record.title record.documentUrl

/-- The click handler of the back-to-results button (script.js 265-268). -/
def backToResultsClick (st : AppState) : AppState :=
  ⟨st.currentPdfUrl, st.currentPdfTitle, View.results, st.docTitle, [], st.resultsGrid⟩

/-- The click handler of the print button (script.js 271-329). The button label and
the hidden print frame are left out; `Effect.print` stands for handing the bytes to
the frame. -/
def printClick (env : Env) (st : AppState) : List Effect :=
  match st.currentPdfUrl with
  | none => []
  | some url =>
    if url.isEmpty then []
    else
      match env.fetch url with
      | none => [Effect.alert "Error preparing document for print.".toList]
      | some response =>
        let arrayBuffer := response.body
        if !startsWith (headerStr arrayBuffer) "%PDF-".toList then
          [Effect.alert "Cannot print: The source file is not a valid PDF.".toList]
        else
          [Effect.stamp arrayBuffer, Effect.print (addFooterToPdf env arrayBuffer)]

/-- The characters kept by `replace(/[^a-zA-Z0-9]/g, '')`. -/
def isAsciiAlphanum (c : Char) : Bool := c.isAlphanum

/-- The download file name of script.js 377-387. -/
def downloadFilename (env : Env) (st : AppState) : Str :=
  let clean := (st.currentPdfTitle.filter isAsciiAlphanum).take 20
  let safeName :=
    if st.currentPdfTitle.isEmpty then "Digital_BLD_Judgment".toList
    else if clean.length > 0 then "Digital_BLD_Judgment".toList ++ "_".toList ++ clean
    else "Digital_BLD_Judgment".toList
  safeName ++ "_".toList ++ (Nat.repr env.now).toList ++ ".pdf".toList

/-- The click handler of the download button (script.js 332-401). The content-type
warning only writes to the console and is left out. -/
def downloadClick (env : Env) (st : AppState) : List Effect :=
  match st.currentPdfUrl with
  | none => []
  | some url =>
    if url.isEmpty then []
    else
      match env.fetch url with
      | none => [Effect.alert "Failed to download PDF.".toList]
      | some response =>
        if !response.ok then [Effect.alert "Failed to download PDF.".toList]
        else
          let arrayBuffer := response.body
          if !startsWith (headerStr arrayBuffer) "%PDF-".toList then
            if startsWith (trim (headerStr arrayBuffer)) "<".toList ||
                includes (headerStr arrayBuffer) "html".toList then
              [Effect.alert
                "The requested document is not available properly (Source returned HTML error).".toList]
            else [Effect.alert "The source file is not a valid PDF.".toList]
          else
            [Effect.stamp arrayBuffer,
              Effect.download (addFooterToPdf env arrayBuffer) (downloadFilename env st)]

/-! ## The document relay (server.js) -/

/-- What the request of `/proxy-pdf` to the upstream site comes to: `axios` throws (no
connection, or a status outside 200-299), or the body is streamed back. -/
inductive UpstreamResult where
  | throws
  | stream (body : Bytes)
deriving DecidableEq, Repr

/-- The bytes of an ASCII text. -/
def asciiBytes (text : String) : Bytes := text.toList.map Char.toNat

/-- The `/proxy-pdf` handler (server.js 44-71), as the response the browser receives:
status 400 without a `url` parameter, status 500 with the text `Error fetching PDF`
when the upstream request throws, and otherwise status 200 with the content type
`application/pdf` and the upstream body. -/
def proxyPdf (upstream : Str → UpstreamResult) (urlParam : Option Str) : Response :=
  match urlParam with
  | none => ⟨false, some "text/html; charset=utf-8".toList, asciiBytes "Missing URL parameter"⟩
  | some pdfUrl =>
    if pdfUrl.isEmpty then
      ⟨false, some "text/html; charset=utf-8".toList, asciiBytes "Missing URL parameter"⟩
    else
      match upstream pdfUrl with
      | UpstreamResult.throws =>
        ⟨false, some "text/html; charset=utf-8".toList, asciiBytes "Error fetching PDF"⟩
      | UpstreamResult.stream body => ⟨true, some "application/pdf".toList, body⟩

/-! ## Notions used to state the properties -/

/-- The candidate condition in the words of the specification: the anchor has an `href`
attribute that contains `.pdf` when letter case is ignored. -/
def HrefHasPdf (link : Link) : Prop :=
  ∃ href, link.href = some href ∧ ".pdf".toList <:+: toLowerCase href

/-- A text without leading or trailing white space. -/
def Trimmed (s : Str) : Prop :=
  (∀ c, s.head? = some c → isJsSpace c = false) ∧
    (∀ c, s.getLast? = some c → isJsSpace c = false)

/-- A text without two white-space characters in a row. -/
def NoSpaceRun (s : Str) : Prop :=
  ∀ a b, [a, b] <:+: s → ¬ (isJsSpace a = true ∧ isJsSpace b = true)

/-- A text whose white space consists of single space characters. -/
def SingleSpaced (s : Str) : Prop :=
  (∀ c ∈ s, isJsSpace c = true → c = ' ') ∧ NoSpaceRun s

/-- A text free of noise tokens: neither noise pattern of `cleanText` matches at any
position of it. -/
def NoiseFree (s : Str) : Prop :=
  ∀ t ∈ s.tails, matchNoise bengaliLabel t = none ∧ matchNoise englishLabel t = none

/-- A text that is already normalized: trimmed, single-spaced and free of noise
tokens. -/
def Normalized (s : Str) : Prop := Trimmed s ∧ SingleSpaced s ∧ NoiseFree s


/-- A response body read as text, one character per byte. -/
def bodyText (body : Bytes) : Str := body.map (fun b => Char.ofNat (b % 256))

/-- A body that is an HTML page: its first character that is not white space is `<`. -/
def IsHtmlPage (body : Bytes) : Prop :=
  ((bodyText body).dropWhile isJsSpace).head? = some '<'

/-- The alert of the download action for a source that returned HTML. -/
def htmlErrorAlert : Effect :=
  Effect.alert
    "The requested document is not available properly (Source returned HTML error).".toList

/-- The alert of the download action for bytes that are not a PDF. -/
def invalidPdfAlert : Effect := Effect.alert "The source file is not a valid PDF.".toList

/-- The alert of the print action for bytes that are not a PDF. -/
def cannotPrintAlert : Effect :=
  Effect.alert "Cannot print: The source file is not a valid PDF.".toList

/-- The alert of the download action when the request fails or its status is not
200-299. -/
def downloadFailedAlert : Effect := Effect.alert "Failed to download PDF.".toList

/-! ## Sample inputs -/

/-- An element with the given tag, no attribute and the given children. -/
def el (tag : String) (children : List Node) : Node := Node.elem tag.toList [] children

/-- A text node. -/
def txt (data : String) : Node := Node.text data.toList

/-- An anchor with the given `href` and text. -/
def anchor (href text : String) : Node :=
  Node.elem "a".toList [("href".toList, href.toList)] [Node.text text.toList]

/-- A response page whose only anchor does not point to a PDF. -/
def docNoPdf : Node :=
  el "body" [el "p" [anchor "index.php" "Home"]]

/-- A response page whose only PDF anchor sits in a row of two cells. -/
def docShortRow : Node :=
  el "table" [el "tr" [el "td" [txt "1"], el "td" [anchor "../j/a.pdf" "Civil Appeal 1"]]]


/-- A table row of four cells whose second cell holds the given nodes. -/
def resultRow (cell : List Node) : Node :=
  el "table" [el "tr" [el "td" [txt "1"], el "td" cell, el "td" [txt "State vs Rahim"],
    el "td" [txt "Appeal allowed"]]]

/-- A response page with one well-formed row whose anchor text is `English Translation`. -/
def docTranslation : Node :=
  resultRow [anchor "j/t.pdf" "English Translation",
    txt " Uploaded on : 08-SEP-25 From : High Court Division"]


/-- The site root that relative links are resolved against. -/
def siteRoot : Str := "https://www.supremecourt.gov.bd/".toList

/-- The base path of the site for links that do not start with `../`. -/
def siteWeb : Str := "https://www.supremecourt.gov.bd/web/".toList

/-- A response page with one well-formed row whose anchor has the relative `href`
`http.pdf`, a file name that starts with the letters `http`. -/
def docHttpName : Node :=
  resultRow [anchor "http.pdf" "Civil Appeal 12 of 2020",
    txt " Uploaded on : 08-SEP-25 From : High Court Division"]

/-- A response page with one row that holds two PDF anchors, neither of them a
translation link. -/
def docTwoAnchors : Node :=
  resultRow [anchor "../j/a.pdf" "Civil Appeal 12 of 2020",
    anchor "../j/b.pdf" "Civil Appeal 12 of 2020 (corrected)",
    txt " Uploaded on : 08-SEP-25 From : High Court Division"]

/-- The tests a candidate has to pass for the callback of `validLinks.forEach` to reach
its end (script.js 134, 139, 159): the trimmed anchor text is not caught by the strict
filter, the cleaned title is not empty, and there is a closest row with at least three
cells. -/
def passesFilters (link : Link) : Bool :=
  !strictFilter (trim link.textContent) &&
    !(cleanText (some (trim link.textContent))).isEmpty &&
    (match link.row with
      | none => false
      | some row => decide (3 ≤ row.cells.length))

/-- The candidates of a page whose closest row is the `tr` element at `path`. -/
def candidatesOfRow (doc : Node) (path : List Nat) : List Link :=
  (validLinks doc).filter (fun l => decide (l.row.map Row.path = some path))

/-- The records that the candidates of the row at `path` yield. -/
def recordsOfRow (doc : Node) (path : List Nat) : List CaseRecord :=
  (candidatesOfRow doc path).filterMap processLink

/-- A composite text with the two labels in the other order. -/
def swappedComposite : Str := "From : High Court Division Uploaded on : 08-SEP-25".toList

/-- A text in which one noise token is wrapped around another. -/
def nestedNoise : Str := "TranslationTranslation (Google) (Google)".toList

/-- The bytes of `<html>`. -/
def htmlBytes : Bytes := [60, 104, 116, 109, 108, 62]

/-- A world in which every URL serves an HTML page with status 200, PDFLib is loaded
and returns its input, and pdf.js rejects what it is given. -/
def envHtml : Env :=
  ⟨fun _ => some ⟨true, some "application/pdf".toList, htmlBytes⟩,
    some (fun b => PdfLibResult.saved b), fun _ => none, 0⟩

/-- The bytes of `%PDF-1.4`. -/
def pdfBytes : Bytes := [37, 80, 68, 70, 45, 49, 46, 52]

/-- A world in which PDFLib loads, draws and saves without throwing, and `save` returns
five zero bytes. -/
def envShortSave : Env :=
  ⟨fun _ => some ⟨true, some "application/pdf".toList, pdfBytes⟩,
    some (fun _ => PdfLibResult.saved [0, 0, 0, 0, 0]), fun _ => none, 0⟩

/-- Five line feeds followed by `<html>`. -/
def paddedHtmlBytes : Bytes := [10, 10, 10, 10, 10, 60, 104, 116, 109, 108, 62]

/-- A world in which every URL serves `paddedHtmlBytes` with status 200. -/
def envPaddedHtml : Env :=
  ⟨fun _ => some ⟨true, some "text/html".toList, paddedHtmlBytes⟩, none, fun _ => none, 0⟩

/-- A world in which every URL serves `<html>` with a status outside 200-299. -/
def envHtmlNotOk : Env :=
  ⟨fun _ => some ⟨false, some "text/html".toList, htmlBytes⟩, none, fun _ => none, 0⟩

/-- A world in which the upstream site cannot be reached, so that `/proxy-pdf` answers
every request with status 500. -/
def envProxyDown : Env :=
  ⟨fun url => some (proxyPdf (fun _ => UpstreamResult.throws) (some url)), none,
    fun _ => none, 0⟩

/-- A world in which every URL serves `%PDF-1.4` with a status outside 200-299 and
PDFLib is not loaded. -/
def envPdfNotOk : Env :=
  ⟨fun _ => some ⟨false, some "application/pdf".toList, pdfBytes⟩, none, fun _ => none, 0⟩

/-- A decoded document of two pages that load and render. -/
def twoPages : PdfDocument := ⟨2, fun _ => some ⟨918, 1188, true⟩⟩

/-- A world in which every URL serves `%PDF-1.4` with status 200, PDFLib is not loaded
and pdf.js decodes the document as `twoPages`. -/
def envPdf : Env :=
  ⟨fun _ => some ⟨true, some "application/pdf".toList, pdfBytes⟩, none,
    fun _ => some twoPages, 0⟩

/-- The state after a document has been opened in the given world. -/
def openedState (env : Env) : AppState :=
  (openPdfView env AppState.initial "Civil Appeal 12".toList
    "https://www.supremecourt.gov.bd/a.pdf".toList).1

/-! ## Strings: basic facts -/

theorem includes_iff (s pat : Str) : includes s pat = true ↔ pat <:+: s := by
  induction s with
  | nil =>
    cases pat <;> simp [includes]
  | cons c r ih =>
    rw [includes, Bool.or_eq_true, ih, List.isPrefixOf_iff_prefix, List.infix_cons_iff]

theorem includes_eq_false_iff (s pat : Str) : includes s pat = false ↔ ¬ pat <:+: s := by
  rw [← includes_iff]; simp

theorem toLowerCase_append (a b : Str) :
    toLowerCase (a ++ b) = toLowerCase a ++ toLowerCase b := by
  induction a with
  | nil => rfl
  | cons c r ih => simp [toLowerCase, ih]

/-! ### Trimming -/

theorem trim_within (s : Str) : trim s <:+: s := by
  unfold trim
  have h1 : (s.dropWhile isJsSpace).reverse.dropWhile isJsSpace <:+
      (s.dropWhile isJsSpace).reverse := List.dropWhile_suffix _
  have h2 := List.reverse_prefix.mpr h1
  rw [List.reverse_reverse] at h2
  exact h2.isInfix.trans (List.dropWhile_suffix _).isInfix

theorem head_dropWhile_isJsSpace (s : Str) (c : Char)
    (h : (s.dropWhile isJsSpace).head? = some c) : isJsSpace c = false := by
  induction s with
  | nil => simp at h
  | cons a r ih =>
    by_cases ha : isJsSpace a = true
    · rw [List.dropWhile_cons_of_pos ha] at h; exact ih h
    · rw [List.dropWhile_cons_of_neg ha] at h
      simp at h; subst h; simpa using ha

theorem dropWhile_eq_self_of_head (s : Str)
    (h : ∀ c, s.head? = some c → isJsSpace c = false) : s.dropWhile isJsSpace = s := by
  cases s with
  | nil => rfl
  | cons a r =>
    have := h a rfl
    rw [List.dropWhile_cons_of_neg (by simp [this])]

theorem trim_trimmed (s : Str) : Trimmed (trim s) := by
  constructor
  · intro c hc
    unfold trim at hc
    rw [List.head?_reverse] at hc
    have hsuf : (s.dropWhile isJsSpace).reverse.dropWhile isJsSpace <:+
        (s.dropWhile isJsSpace).reverse := List.dropWhile_suffix _
    have hne : (s.dropWhile isJsSpace).reverse.dropWhile isJsSpace ≠ [] := by
      intro h0; rw [h0] at hc; simp at hc
    obtain ⟨t, ht⟩ := hsuf
    have h3 : ((s.dropWhile isJsSpace).reverse).getLast? = some c := by
      rw [← ht, List.getLast?_append_of_ne_nil _ hne]; exact hc
    rw [List.getLast?_reverse] at h3
    exact head_dropWhile_isJsSpace s c h3
  · intro c hc
    unfold trim at hc
    rw [List.getLast?_reverse] at hc
    exact head_dropWhile_isJsSpace _ c hc

theorem trim_eq_self (s : Str) (h : Trimmed s) : trim s = s := by
  unfold trim
  rw [dropWhile_eq_self_of_head s h.1, dropWhile_eq_self_of_head, List.reverse_reverse]
  intro c hc
  rw [List.head?_reverse] at hc
  exact h.2 c hc

/-! ### Global replacement -/

theorem replaceAllAux_skip (m : Str → Option Str) (rep : Str) :
    ∀ (s : Str) (k : Nat), replaceAllAux m rep k s = replaceAllAux m rep 0 (s.drop k) := by
  intro s
  induction s with
  | nil => intro k; cases k <;> simp [replaceAllAux]
  | cons c r ih =>
    intro k
    cases k with
    | zero => rfl
    | succ k => rw [replaceAllAux, ih k, List.drop_succ_cons]

theorem replaceAll_nil_of_none (m : Str → Option Str) (rep : Str) (h : m [] = none) :
    replaceAll m rep [] = [] := by
  simp [replaceAll, replaceAllAux, h]

theorem replaceAll_cons_of_none (m : Str → Option Str) (rep : Str) (c : Char) (r : Str)
    (h : m (c :: r) = none) : replaceAll m rep (c :: r) = c :: replaceAll m rep r := by
  simp [replaceAll, replaceAllAux, h]

theorem replaceAll_of_some (m : Str → Option Str) (rep : Str) (s pre rest : Str)
    (h : m s = some rest) (hs : s = pre ++ rest) (hpre : pre ≠ []) :
    replaceAll m rep s = rep ++ replaceAll m rep rest := by
  cases pre with
  | nil => exact absurd rfl hpre
  | cons c p =>
    subst hs
    have hlen : ((c :: p) ++ rest).length - rest.length = p.length + 1 := by
      simp; omega
    rw [List.cons_append] at h hlen ⊢
    unfold replaceAll
    rw [replaceAllAux, h]
    simp only [hlen]
    rw [replaceAllAux_skip]
    simp

/-! ### White-space runs -/

theorem matchSpaces_nil (n : Nat) : matchSpaces (n + 1) [] = none := by
  simp [matchSpaces]

theorem matchSpaces_of_not_space (n : Nat) (c : Char) (r : Str) (h : isJsSpace c = false) :
    matchSpaces (n + 1) (c :: r) = none := by
  simp [matchSpaces, h]

theorem matchSpaces_two_single (c : Char) (r : Str)
    (hr : ∀ d, r.head? = some d → isJsSpace d = false) :
    matchSpaces 2 (c :: r) = none := by
  by_cases hc : isJsSpace c = true
  · cases r with
    | nil => simp [matchSpaces, hc]
    | cons d r =>
      have hd := hr d rfl
      simp [matchSpaces, hc, hd]
  · exact matchSpaces_of_not_space 1 c r (by simpa using hc)

theorem length_dropWhile_le (p : Char → Bool) (s : Str) :
    (s.dropWhile p).length ≤ s.length :=
  (List.dropWhile_suffix p).length_le

theorem matchSpaces_two_run (c d : Char) (r : Str) (hc : isJsSpace c = true)
    (hd : isJsSpace d = true) :
    matchSpaces 2 (c :: d :: r) = some (r.dropWhile isJsSpace) := by
  have := length_dropWhile_le isJsSpace r
  simp [matchSpaces, hc, hd]
  omega

theorem collapse_run (c d : Char) (r : Str) (hc : isJsSpace c = true)
    (hd : isJsSpace d = true) :
    replaceAll (matchSpaces 2) [' '] (c :: d :: r) =
      ' ' :: replaceAll (matchSpaces 2) [' '] (r.dropWhile isJsSpace) := by
  obtain ⟨t, ht⟩ := List.dropWhile_suffix isJsSpace (l := r)
  have := replaceAll_of_some (matchSpaces 2) [' '] (c :: d :: r) (c :: d :: t)
    (r.dropWhile isJsSpace) (matchSpaces_two_run c d r hc hd) (by simp [ht]) (by simp)
  simpa using this

theorem collapse_nil : replaceAll (matchSpaces 2) [' '] [] = [] :=
  replaceAll_nil_of_none _ _ (matchSpaces_nil 1)

theorem collapse_cons_of_not_space (c : Char) (r : Str) (h : isJsSpace c = false) :
    replaceAll (matchSpaces 2) [' '] (c :: r) = c :: replaceAll (matchSpaces 2) [' '] r :=
  replaceAll_cons_of_none _ _ c r (matchSpaces_of_not_space 1 c r h)

theorem collapse_head_of_head (s : Str) (hs : ∀ c, s.head? = some c → isJsSpace c = false) :
    ∀ c, (replaceAll (matchSpaces 2) [' '] s).head? = some c → isJsSpace c = false := by
  cases s with
  | nil => intro c hc; simp [collapse_nil] at hc
  | cons a r =>
    intro c hc
    have ha := hs a rfl
    rw [collapse_cons_of_not_space a r ha] at hc
    simp at hc; subst hc; exact ha

theorem collapse_chain (s : Str) :
    List.Chain' (fun a b => ¬ (isJsSpace a = true ∧ isJsSpace b = true))
      (replaceAll (matchSpaces 2) [' '] s) := by
  generalize h : s.length = n
  induction n using Nat.strong_induction_on generalizing s with
  | _ n ih =>
    cases s with
    | nil => rw [collapse_nil]; exact List.chain'_nil
    | cons c r =>
      by_cases hc : isJsSpace c = true
      · cases r with
        | nil =>
          rw [replaceAll_cons_of_none _ _ c [] (matchSpaces_two_single c [] (by simp)),
            collapse_nil]
          exact List.chain'_singleton c
        | cons d r =>
          by_cases hd : isJsSpace d = true
          · rw [collapse_run c d r hc hd, List.chain'_cons']
            have hlen := length_dropWhile_le isJsSpace r
            refine ⟨?_, ih _ (by subst h; simp; omega) _ rfl⟩
            intro y hy
            have := collapse_head_of_head (r.dropWhile isJsSpace)
              (head_dropWhile_isJsSpace r) y (by simpa using hy)
            simp [this]
          · have hd' : isJsSpace d = false := by simpa using hd
            rw [replaceAll_cons_of_none _ _ c (d :: r)
              (matchSpaces_two_single c (d :: r) (by simp [hd'])), List.chain'_cons']
            refine ⟨?_, ih _ (by subst h; simp) _ rfl⟩
            intro y hy
            rw [collapse_cons_of_not_space d r hd'] at hy
            simp at hy; subst hy; simp [hd']
      · have hc' : isJsSpace c = false := by simpa using hc
        rw [collapse_cons_of_not_space c r hc', List.chain'_cons']
        refine ⟨?_, ih _ (by subst h; simp) _ rfl⟩
        intro y _; simp [hc']

/-! ## Result extraction: empty states -/

theorem isValidLink_iff (l : Link) : isValidLink l = true ↔ HrefHasPdf l := by
  unfold isValidLink HrefHasPdf
  cases hh : l.href with
  | none => simp
  | some href =>
    simp only [Option.some.injEq, exists_eq_left', Bool.and_eq_true, Bool.not_eq_true',
      Bool.or_eq_true, includes_iff]
    constructor
    · rintro ⟨_, h | h⟩
      · unfold endsWith at h
        exact (List.isSuffixOf_iff_suffix.mp h).isInfix
      · exact h
    · intro h
      refine ⟨?_, Or.inr h⟩
      cases href with
      | nil => simp [toLowerCase] at h
      | cons a r => rfl

theorem foldl_forEachStep (ls : List Link) (grid : List GridItem) (n : Nat) :
    ls.foldl forEachStep (grid, n) =
      (grid ++ (ls.filterMap processLink).map GridItem.card,
        n + (ls.filterMap processLink).length) := by
  induction ls generalizing grid n with
  | nil => simp
  | cons l ls ih =>
    rw [List.foldl_cons]
    cases hp : processLink l with
    | none => simp [forEachStep, hp, ih]
    | some r =>
      rw [List.filterMap_cons_some hp]
      simp only [forEachStep, hp, ih, List.map_cons, List.length_cons, List.append_assoc,
        List.singleton_append, Nat.add_assoc, Nat.add_comm 1]

theorem records_map_card (rs : List CaseRecord) : records (rs.map GridItem.card) = rs := by
  induction rs with
  | nil => rfl
  | cons r rs ih => simp [records, ih]

theorem parseAndDisplayResults_eq (doc : Node) (grid : List GridItem) :
    parseAndDisplayResults doc grid =
      if validLinks doc = [] then [GridItem.noResults]
      else if (validLinks doc).filterMap processLink = [] then [GridItem.noValidCards]
      else grid ++ ((validLinks doc).filterMap processLink).map GridItem.card := by
  unfold parseAndDisplayResults
  simp only [foldl_forEachStep, List.length_eq_zero, Nat.zero_add]

/-- C1: the empty state is decided by the candidate count. When no anchor has an `href`
that contains `.pdf` (letter case ignored), the grid holds the NoResults message alone
and no record. When some anchor has one but every such anchor yields no record, the
grid holds the NoValidRecords message alone and no record. -/
theorem parseAndDisplayResults_empty_state (doc : Node) (grid : List GridItem) :
    ((∀ l ∈ links doc, ¬ HrefHasPdf l) →
      parseAndDisplayResults doc grid = [GridItem.noResults] ∧
        records (parseAndDisplayResults doc grid) = []) ∧
    ((∃ l ∈ links doc, HrefHasPdf l) →
      (∀ l ∈ links doc, HrefHasPdf l → processLink l = none) →
      parseAndDisplayResults doc grid = [GridItem.noValidCards] ∧
        records (parseAndDisplayResults doc grid) = []) := by
  rw [parseAndDisplayResults_eq]
  constructor
  · intro h
    have hv : validLinks doc = [] := by
      unfold validLinks
      rw [List.filter_eq_nil_iff]
      intro l hl
      rw [isValidLink_iff]
      exact h l hl
    simp [hv, records]
  · rintro ⟨l, hl, hpdf⟩ hnone
    have hv : validLinks doc ≠ [] := by
      intro h0
      have : l ∈ validLinks doc := by
        unfold validLinks
        exact List.mem_filter.mpr ⟨hl, (isValidLink_iff l).mpr hpdf⟩
      rw [h0] at this
      exact List.not_mem_nil _ this
    have hf : (validLinks doc).filterMap processLink = [] := by
      rw [List.filterMap_eq_nil_iff]
      intro a ha
      unfold validLinks at ha
      obtain ⟨ha1, ha2⟩ := List.mem_filter.mp ha
      exact hnone a ha1 ((isValidLink_iff a).mp ha2)
    simp [hv, hf, records]

/-- A candidate whose closest row has fewer than three cells yields no record. -/
theorem processLink_short_row (l : Link) (row : Row) (hr : l.row = some row)
    (hc : row.cells.length < 3) : processLink l = none := by
  unfold processLink
  simp only [hr]
  split
  · rfl
  · split
    · rfl
    · cases l.href with
      | none => rfl
      | some href => simp [hc]

theorem parseAndDisplayResults_empty_state_witness :
    (parseAndDisplayResults docNoPdf [] = [GridItem.noResults] ∧
      records (parseAndDisplayResults docNoPdf []) = []) ∧
    (parseAndDisplayResults docShortRow [] = [GridItem.noValidCards] ∧
      records (parseAndDisplayResults docShortRow []) = []) :=
  ⟨(parseAndDisplayResults_empty_state docNoPdf []).1 (by
      intro l hl
      rw [← isValidLink_iff]
      revert l hl
      decide),
   (parseAndDisplayResults_empty_state docShortRow []).2
    ⟨⟨some "../j/a.pdf".toList, "Civil Appeal 1".toList,
        some ⟨[0], ["1".toList, "Civil Appeal 1".toList]⟩⟩,
      by decide, (isValidLink_iff _).mp (by decide)⟩
    (by
      intro l hl hpdf
      clear hpdf
      revert l
      decide)⟩

/-! ## Text normalization -/

theorem noSpaceRun_of_chain (s : Str)
    (h : List.Chain' (fun a b => ¬ (isJsSpace a = true ∧ isJsSpace b = true)) s) :
    NoSpaceRun s := by
  intro a b hab
  have := h.infix hab
  simpa using this

theorem noSpaceRun_mono (s t : Str) (h : NoSpaceRun s) (ht : t <:+: s) : NoSpaceRun t :=
  fun a b hab => h a b (hab.trans ht)

/-- C9: the result of `cleanText` has no leading or trailing white space and no two
white-space characters in a row; for absent or empty input it is the empty string. -/
theorem cleanText_trimmed_single_spaced (text : Option Str) :
    Trimmed (cleanText text) ∧ NoSpaceRun (cleanText text) ∧
      ((text = none ∨ text = some []) → cleanText text = []) := by
  have hnil : Trimmed ([] : Str) ∧ NoSpaceRun ([] : Str) := by
    refine ⟨⟨by simp, by simp⟩, ?_⟩
    intro a b hab
    simp at hab
  cases text with
  | none => exact ⟨hnil.1, hnil.2, fun _ => rfl⟩
  | some t =>
    cases t with
    | nil => exact ⟨hnil.1, hnil.2, fun _ => rfl⟩
    | cons c r =>
      refine ⟨trim_trimmed _, ?_, ?_⟩
      · exact noSpaceRun_mono _ _ (noSpaceRun_of_chain _ (collapse_chain _)) (trim_within _)
      · rintro (h | h) <;> simp at h

theorem cleanText_trimmed_single_spaced_witness :
    cleanText none = [] ∧ cleanText (some []) = [] :=
  ⟨(cleanText_trimmed_single_spaced none).2.2 (Or.inl rfl),
    (cleanText_trimmed_single_spaced (some [])).2.2 (Or.inr rfl)⟩

/-! ## The strict filter -/

theorem trim_decomp (s : Str) :
    ∃ a b, s = a ++ trim s ++ b ∧ (∀ c ∈ a, isJsSpace c = true) ∧
      (∀ c ∈ b, isJsSpace c = true) := by
  refine ⟨s.takeWhile isJsSpace,
    ((s.dropWhile isJsSpace).reverse.takeWhile isJsSpace).reverse, ?_, ?_, ?_⟩
  · unfold trim
    rw [List.append_assoc, ← List.reverse_append, List.takeWhile_append_dropWhile,
      List.reverse_reverse, List.takeWhile_append_dropWhile]
  · intro c hc; exact List.mem_takeWhile_imp hc
  · intro c hc
    rw [List.mem_reverse] at hc
    exact List.mem_takeWhile_imp hc

theorem infix_strip_left (p a m : Str) (hp : ∀ c ∈ p, isJsSpace c = false) (hne : p ≠ [])
    (ha : ∀ c ∈ a, isJsSpace c = true) (h : p <:+: a ++ m) : p <:+: m := by
  induction a with
  | nil => simpa using h
  | cons x a ih =>
    rw [List.cons_append, List.infix_cons_iff] at h
    rcases h with h | h
    · cases p with
      | nil => exact absurd rfl hne
      | cons y p =>
        have hxy : y = x := (List.cons_prefix_cons.mp h).1
        have h1 := hp y (List.mem_cons_self _ _)
        have h2 := ha x (List.mem_cons_self _ _)
        rw [hxy, h2] at h1
        exact absurd h1 (by simp)
    · exact ih (fun c hc => ha c (List.mem_cons_of_mem _ hc)) h

theorem infix_strip_right (p m b : Str) (hp : ∀ c ∈ p, isJsSpace c = false) (hne : p ≠ [])
    (hb : ∀ c ∈ b, isJsSpace c = true) (h : p <:+: m ++ b) : p <:+: m := by
  rw [← List.reverse_infix] at h ⊢
  rw [List.reverse_append] at h
  exact infix_strip_left p.reverse b.reverse m.reverse
    (fun c hc => hp c (List.mem_reverse.mp hc)) (by simpa using hne)
    (fun c hc => hb c (List.mem_reverse.mp hc)) h

theorem infix_trim (p s : Str) (hp : ∀ c ∈ p, isJsSpace c = false) (hne : p ≠ [])
    (h : p <:+: s) : p <:+: trim s := by
  obtain ⟨a, b, hs, ha, hb⟩ := trim_decomp s
  rw [hs, List.append_assoc] at h
  exact infix_strip_right p _ b hp hne hb (infix_strip_left p a _ hp hne ha h)

theorem lowerChar_of_space (c : Char) (h : isJsSpace c = true) : lowerChar c = [c] := by
  have hn : c.toNat ≠ 304 ∧ c.toNat ≠ 8490 ∧ ¬ (65 ≤ c.toNat ∧ c.toNat ≤ 90) := by
    simp only [isJsSpace, Bool.or_eq_true, beq_iff_eq, Bool.and_eq_true, decide_eq_true_eq]
      at h
    omega
  unfold lowerChar
  rw [if_neg hn.1, if_neg hn.2.1]
  unfold Char.toLower
  simp only [ge_iff_le]
  rw [if_neg hn.2.2]

theorem toLowerCase_of_spaces (a : Str) (h : ∀ c ∈ a, isJsSpace c = true) :
    toLowerCase a = a := by
  induction a with
  | nil => rfl
  | cons x a ih =>
    rw [toLowerCase, lowerChar_of_space x (h x (List.mem_cons_self _ _)),
      ih (fun c hc => h c (List.mem_cons_of_mem _ hc))]
    rfl

theorem infix_toLowerCase_trim (p s : Str) (hp : ∀ c ∈ p, isJsSpace c = false)
    (hne : p ≠ []) (h : p <:+: toLowerCase s) : p <:+: toLowerCase (trim s) := by
  obtain ⟨a, b, hs, ha, hb⟩ := trim_decomp s
  rw [hs, toLowerCase_append, toLowerCase_append, toLowerCase_of_spaces a ha,
    toLowerCase_of_spaces b hb, List.append_assoc] at h
  exact infix_strip_right p _ b hp hne hb (infix_strip_left p a _ hp hne ha h)

theorem processLink_of_strictFilter (l : Link) (h : strictFilter (trim l.textContent) = true) :
    processLink l = none := by
  unfold processLink
  simp [h]

/-- C2, as the script has it: an anchor whose text contains the Bengali word, or
contains both `translation` and `google` in any letter case, yields no record,
whatever its row looks like. -/
theorem processLink_translation_marker (l : Link)
    (h : bengaliLabel <:+: l.textContent ∨
      ("translation".toList <:+: toLowerCase l.textContent ∧
        "google".toList <:+: toLowerCase l.textContent)) :
    processLink l = none := by
  apply processLink_of_strictFilter
  unfold strictFilter
  simp only [Bool.or_eq_true, Bool.and_eq_true, includes_iff]
  rcases h with h | ⟨h1, h2⟩
  · exact Or.inl (infix_trim _ _ (by decide) (by decide) h)
  · exact Or.inr ⟨infix_toLowerCase_trim _ _ (by decide) (by decide) h1,
      infix_toLowerCase_trim _ _ (by decide) (by decide) h2⟩

theorem processLink_translation_marker_witness :
    processLink ⟨some "j/t.pdf".toList, "Translation (Google)".toList,
      some ⟨[0, 0], ["1".toList, "x".toList, "y".toList]⟩⟩ = none :=
  processLink_translation_marker _
    (Or.inr ⟨(includes_iff _ _).mp (by decide), (includes_iff _ _).mp (by decide)⟩)

/-- C2 fails as stated: the page `docTranslation` has a candidate anchor whose text
contains the word `translation`, and the anchor yields a record. -/
theorem translation_marker_counterexample :
    ∃ l ∈ validLinks docTranslation,
      "translation".toList <:+: toLowerCase l.textContent ∧
        (processLink l).isSome = true ∧
        (extract docTranslation).map (fun r => r.title) = ["English Translation".toList] :=
  ⟨⟨some "j/t.pdf".toList, "English Translation".toList,
      some ⟨[0], ["1".toList,
        "English Translation Uploaded on : 08-SEP-25 From : High Court Division".toList,
        "State vs Rahim".toList, "Appeal allowed".toList]⟩⟩,
    by decide, (includes_iff _ _).mp (by decide), by decide, by decide⟩

/-! ## URL resolution -/

/-- The resolution in terms of the script's own test, the prefix `http`: an `href`
that starts with `../` resolves to the site root followed by the `href` without that
leading marker; any other `href` that does not start with `http` resolves to the
`/web/` base followed by the `href` unchanged; an `href` that starts with `http` is
left as it is. -/
theorem resolveUrl_cases (href : Str) :
    (∀ rest, href = "../".toList ++ rest → resolveUrl href = siteRoot ++ rest) ∧
    (¬ "http".toList <+: href → ¬ "../".toList <+: href →
      resolveUrl href = siteWeb ++ href) ∧
    ("http".toList <+: href → resolveUrl href = href) := by
  refine ⟨?_, ?_, ?_⟩
  · intro rest h
    subst h
    simp [resolveUrl, startsWith, replaceFirst, matchExact, siteRoot]
  · intro h1 h2
    have e1 : startsWith href "http".toList = false := by
      unfold startsWith
      rw [Bool.eq_false_iff, ne_eq, List.isPrefixOf_iff_prefix]
      exact h1
    have e2 : startsWith href "../".toList = false := by
      unfold startsWith
      rw [Bool.eq_false_iff, ne_eq, List.isPrefixOf_iff_prefix]
      exact h2
    unfold resolveUrl
    rw [e1, e2]
    rfl
  · intro h
    have e1 : startsWith href "http".toList = true := by
      unfold startsWith
      rw [ List.isPrefixOf_iff_prefix]
      exact h
    unfold resolveUrl
    rw [e1]
    rfl

theorem resolveUrl_cases_witness :
    resolveUrl "../judgment/a.pdf".toList =
        "https://www.supremecourt.gov.bd/judgment/a.pdf".toList ∧
      resolveUrl "resources/b.pdf".toList =
        "https://www.supremecourt.gov.bd/web/resources/b.pdf".toList ∧
      resolveUrl "https://example.org/c.pdf".toList = "https://example.org/c.pdf".toList :=
  ⟨(resolveUrl_cases "../judgment/a.pdf".toList).1 "judgment/a.pdf".toList rfl,
    (resolveUrl_cases "resources/b.pdf".toList).2.1 (by decide) (by decide),
    (resolveUrl_cases "https://example.org/c.pdf".toList).2.2 (by decide)⟩

theorem resolveUrl_startsWith_http (href : Str) :
    startsWith (resolveUrl href) "http".toList = true := by
  unfold resolveUrl
  by_cases h : startsWith href "http".toList = true
  · rw [h]; exact h
  · have h' : startsWith href "http".toList = false := by simpa using h
    by_cases h2 : startsWith href "../".toList = true
    · rw [h', h2]; rfl
    · have h2' : startsWith href "../".toList = false := by simpa using h2
      rw [h', h2']; rfl

/-- C4 at two inputs. The relative `href` `http.pdf` starts with no scheme and not
with `../`, yet it is left as it is instead of being resolved beneath the `/web/` base,
because the script takes the four letters `http` for an absolute scheme. The absolute
`href` `HTTP://EXAMPLE.ORG/D.PDF` does not start with the lower-case letters `http`, so
it is not left unchanged: the `/web/` base is put in front of it. -/
theorem resolveUrl_misjudges_scheme :
    (startsWith "http.pdf".toList "http://".toList = false ∧
      startsWith "http.pdf".toList "https://".toList = false ∧
      startsWith "http.pdf".toList "../".toList = false ∧
      resolveUrl "http.pdf".toList = "http.pdf".toList ∧
      resolveUrl "http.pdf".toList ≠ siteWeb ++ "http.pdf".toList) ∧
    (resolveUrl "HTTP://EXAMPLE.ORG/D.PDF".toList =
        siteWeb ++ "HTTP://EXAMPLE.ORG/D.PDF".toList ∧
      resolveUrl "HTTP://EXAMPLE.ORG/D.PDF".toList ≠ "HTTP://EXAMPLE.ORG/D.PDF".toList) := by
  decide

/-- C5 at the page `docHttpName`: the relative `href` `http.pdf` passes the script's
prefix test and reaches the record unresolved, so the document URL starts with neither
`http://` nor `https://`. -/
theorem documentUrl_relative_http_name :
    (extract docHttpName).map (fun r => r.documentUrl) = ["http.pdf".toList] ∧
      startsWith "http.pdf".toList "http://".toList = false ∧
      startsWith "http.pdf".toList "https://".toList = false := by
  decide

/-! ## Records and rows -/

theorem extract_eq (doc : Node) : extract doc = (validLinks doc).filterMap processLink := by
  unfold extract searchResultGrid
  rw [parseAndDisplayResults_eq]
  by_cases h1 : validLinks doc = []
  · simp [h1, records]
  · by_cases h2 : (validLinks doc).filterMap processLink = []
    · rw [if_neg h1, if_pos h2, h2]; rfl
    · rw [if_neg h1, if_neg h2, List.nil_append, records_map_card]

/-- C6 fails as stated: the single row of `docTwoAnchors` yields two records. -/
theorem row_yields_two_records :
    (candidatesOfRow docTwoAnchors [0]).length = 2 ∧
      (recordsOfRow docTwoAnchors [0]).length = 2 ∧
      (extract docTwoAnchors).length = 2 := by
  decide

theorem length_filterMap_eq_filter_isSome (f : Link → Option CaseRecord) (ls : List Link) :
    (ls.filterMap f).length = (ls.filter (fun l => (f l).isSome)).length := by
  induction ls with
  | nil => rfl
  | cons l ls ih =>
    cases h : f l with
    | none => simp [List.filterMap_cons, List.filter_cons, h, ih]
    | some r => simp [List.filterMap_cons, List.filter_cons, h, ih]

theorem href_of_mem_validLinks (doc : Node) (l : Link) (h : l ∈ validLinks doc) :
    ∃ href, l.href = some href := by
  unfold validLinks at h
  obtain ⟨href, hh, _⟩ := (isValidLink_iff l).mp (List.mem_filter.mp h).2
  exact ⟨href, hh⟩

theorem processLink_isSome (l : Link) (href : Str) (hh : l.href = some href) :
    (processLink l).isSome = passesFilters l := by
  unfold processLink passesFilters
  simp only [hh]
  cases hs : strictFilter (trim l.textContent) with
  | true => simp
  | false =>
    cases ht : (cleanText (some (trim l.textContent))).isEmpty with
    | true => simp
    | false =>
      cases hr : l.row with
      | none => simp
      | some row =>
        by_cases hc : row.cells.length < 3
        · have : ¬ 3 ≤ row.cells.length := by omega
          simp [hc, this]
        · have : 3 ≤ row.cells.length := by omega
          simp [hc, this]

/-- C6, as the script has it: the output of `extract` holds, in document order, one
record for each candidate anchor that passes the filters and none for any other; rows
are not deduplicated, so the row at any `path` yields exactly as many records as it
holds candidate anchors that pass the filters, and all of these records are part of
the output. -/
theorem extract_one_record_per_candidate (doc : Node) (path : List Nat) :
    extract doc = (validLinks doc).filterMap processLink ∧
      (∀ l ∈ validLinks doc, (processLink l).isSome = passesFilters l) ∧
      (extract doc).length = ((validLinks doc).filter passesFilters).length ∧
      (recordsOfRow doc path).length =
        ((candidatesOfRow doc path).filter passesFilters).length ∧
      (recordsOfRow doc path).Sublist (extract doc) := by
  have hb : ∀ l ∈ validLinks doc, (processLink l).isSome = passesFilters l := by
    intro l hl
    obtain ⟨href, hh⟩ := href_of_mem_validLinks doc l hl
    exact processLink_isSome l href hh
  refine ⟨extract_eq doc, hb, ?_, ?_, ?_⟩
  · rw [extract_eq, length_filterMap_eq_filter_isSome]
    exact congrArg List.length (List.filter_congr hb)
  · unfold recordsOfRow
    rw [length_filterMap_eq_filter_isSome]
    apply congrArg List.length
    apply List.filter_congr
    intro l hl
    unfold candidatesOfRow at hl
    exact hb l (List.mem_filter.mp hl).1
  · rw [extract_eq]
    unfold recordsOfRow candidatesOfRow
    exact (List.filter_sublist _).filterMap processLink

/-! ## Composite field -/

theorem indexOf_eq_none_iff (s pat : Str) : indexOf s pat = none ↔ ¬ pat <:+: s := by
  induction s with
  | nil => cases pat <;> simp [indexOf]
  | cons c r ih =>
    rw [indexOf, List.infix_cons_iff, not_or, ← ih, ← List.isPrefixOf_iff_prefix]
    by_cases hp : pat.isPrefixOf (c :: r) = true
    · simp [hp]
    · simp [hp]

theorem cleanText_nil : cleanText (some []) = [] := rfl

/-- C7, as the script has it: a field whose label does not occur in the composite text
is the empty string. Nothing is said about a text in which `From` comes first. -/
theorem splitComposite_missing_label (t : Str) :
    (¬ "Uploaded on".toList <:+: t → (splitComposite t).1 = []) ∧
    (¬ "From".toList <:+: t → (splitComposite t).2 = []) := by
  constructor
  · intro h
    have := (indexOf_eq_none_iff t "Uploaded on".toList).mpr h
    unfold splitComposite
    simp only [this]
    rfl
  · intro h
    have := (indexOf_eq_none_iff t "From".toList).mpr h
    unfold splitComposite
    simp only [this]
    rfl

theorem splitComposite_missing_label_witness :
    (splitComposite "From : High Court Division".toList).1 = [] ∧
      (splitComposite "Uploaded on : 08-SEP-25".toList).2 = [] :=
  ⟨(splitComposite_missing_label "From : High Court Division".toList).1
      (by rw [← includes_iff]; decide),
    (splitComposite_missing_label "Uploaded on : 08-SEP-25".toList).2
      (by rw [← includes_iff]; decide)⟩

/-- C7 fails as stated: with `From` before `Uploaded on` both fields are non-empty, and
each holds the label or the text of the other. -/
theorem splitComposite_swapped_labels :
    splitComposite swappedComposite =
      ("From : High Court Division".toList,
        "High Court Division Uploaded on : 08-SEP-25".toList) := by
  decide

/-- C8 at the text `nestedNoise`: the one pass of the second pattern removes the inner
token and leaves the outer one, so the result is itself a noise token. -/
theorem cleanText_leaves_nested_token :
    cleanText (some nestedNoise) = "Translation (Google)".toList ∧
      (matchNoise englishLabel (cleanText (some nestedNoise))).isSome = true := by
  decide

/-! ## Signature check -/

theorem ne_of_header (buffer body : Bytes) (h : hasPdfHeader buffer = false)
    (hb : ¬ (!startsWith (headerStr body) "%PDF-".toList) = true) : buffer ≠ body := by
  intro e
  subst e
  unfold hasPdfHeader at h
  rw [h] at hb
  exact hb rfl

theorem printClick_stamps_only_pdf (env : Env) (st : AppState) (buffer : Bytes)
    (h : hasPdfHeader buffer = false) :
    Effect.stamp buffer ∉ printClick env st ∧ Effect.pdfjsLoad buffer ∉ printClick env st := by
  unfold printClick
  split
  · simp
  · split
    · simp
    · split
      · simp
      · dsimp only
        split
        · simp
        · next hb => simp [ne_of_header buffer _ h hb]

theorem downloadClick_stamps_only_pdf (env : Env) (st : AppState) (buffer : Bytes)
    (h : hasPdfHeader buffer = false) :
    Effect.stamp buffer ∉ downloadClick env st ∧
      Effect.pdfjsLoad buffer ∉ downloadClick env st := by
  unfold downloadClick
  split
  · simp
  · split
    · simp
    · split
      · simp
      · split
        · simp
        · dsimp only
          split
          · split <;> simp
          · next hb => simp [ne_of_header buffer _ h hb]

/-- C10 on the open-document path, in the world `envHtml`: the buffer `<html>` fails
the signature test, and `openPdfView` still hands it to the renderer, which passes it to
pdf.js. -/
theorem openPdfView_renders_unchecked :
    hasPdfHeader htmlBytes = false ∧
      Effect.pdfjsLoad htmlBytes ∈
        (openPdfView envHtml AppState.initial "Civil Appeal 12".toList
          "https://www.supremecourt.gov.bd/a.pdf".toList).2 ∧
      printClick envHtml (openPdfView envHtml AppState.initial "Civil Appeal 12".toList
          "https://www.supremecourt.gov.bd/a.pdf".toList).1 =
        [Effect.alert "Cannot print: The source file is not a valid PDF.".toList] := by
  decide

/-! ## Normalized text is left alone -/

theorem replaceAll_eq_self (m : Str → Option Str) (rep s : Str)
    (h : ∀ t ∈ s.tails, m t = none) : replaceAll m rep s = s := by
  induction s with
  | nil => exact replaceAll_nil_of_none m rep (h [] (by simp))
  | cons c r ih =>
    rw [replaceAll_cons_of_none m rep c r (h (c :: r) (by simp)),
      ih (fun t ht => h t (by simp [ht]))]

theorem noSpaceRun_cons (a : Char) (s : Str) (h : NoSpaceRun (a :: s)) : NoSpaceRun s :=
  fun x y hxy => h x y (hxy.trans (List.suffix_cons a s).isInfix)

theorem matchSpaces_two_of_noSpaceRun (s : Str) (h : NoSpaceRun s) :
    matchSpaces 2 s = none := by
  cases s with
  | nil => exact matchSpaces_nil 1
  | cons x r =>
    by_cases hx : isJsSpace x = true
    · apply matchSpaces_two_single
      intro d hd
      cases r with
      | nil => simp at hd
      | cons y r =>
        simp at hd; subst hd
        have := h x y ⟨[], r, by simp⟩
        simpa [hx] using this
    · exact matchSpaces_of_not_space 1 x r (by simpa using hx)

theorem noSpaceRun_tails (s t : Str) (h : NoSpaceRun s) (ht : t ∈ s.tails) : NoSpaceRun t :=
  noSpaceRun_mono s t h ((List.mem_tails _ _).mp ht).isInfix

theorem collapse_eq_self (s : Str) (h : NoSpaceRun s) :
    replaceAll (matchSpaces 2) [' '] s = s :=
  replaceAll_eq_self _ _ s
    (fun t ht => matchSpaces_two_of_noSpaceRun t (noSpaceRun_tails s t h ht))

theorem cleanText_eq_self (s : Str) (h : Normalized s) : cleanText (some s) = s := by
  obtain ⟨ht, hs, hn⟩ := h
  cases s with
  | nil => rfl
  | cons c r =>
    unfold cleanText
    simp only [List.isEmpty_cons, Bool.false_eq_true, if_false]
    rw [replaceAll_eq_self _ _ (c :: r) (fun t ht => (hn t ht).1),
      replaceAll_eq_self _ _ (c :: r) (fun t ht => (hn t ht).2),
      collapse_eq_self _ hs.2, trim_eq_self _ ht]

theorem matchSpaces_one_single (r : Str) (hr : ∀ d, r.head? = some d → isJsSpace d = false) :
    matchSpaces 1 (' ' :: r) = some r := by
  have hsp : isJsSpace ' ' = true := by decide
  unfold matchSpaces
  rw [List.dropWhile_cons_of_pos hsp, dropWhile_eq_self_of_head r hr]
  simp

theorem squeeze_eq_self (s : Str) (h : SingleSpaced s) :
    replaceAll (matchSpaces 1) [' '] s = s := by
  induction s with
  | nil => exact replaceAll_nil_of_none _ _ (matchSpaces_nil 0)
  | cons x r ih =>
    have hr : SingleSpaced r :=
      ⟨fun c hc => h.1 c (List.mem_cons_of_mem _ hc), noSpaceRun_cons x r h.2⟩
    by_cases hx : isJsSpace x = true
    · have hx' : x = ' ' := h.1 x (List.mem_cons_self _ _) hx
      subst hx'
      have hhead : ∀ d, r.head? = some d → isJsSpace d = false := by
        intro d hd
        cases r with
        | nil => simp at hd
        | cons y r =>
          simp at hd; subst hd
          have := h.2 ' ' y ⟨[], r, by simp⟩
          simpa [hx] using this
      rw [replaceAll_of_some _ _ (' ' :: r) [' '] r (matchSpaces_one_single r hhead) rfl
        (by simp), ih hr]
      rfl
    · rw [replaceAll_cons_of_none _ _ x r
        (matchSpaces_of_not_space 0 x r (by simpa using hx)), ih hr]

theorem caseInfoText_eq_self (s : Str) (ht : Trimmed s) (hs : SingleSpaced s) :
    caseInfoText s = s := by
  unfold caseInfoText
  rw [squeeze_eq_self s hs, trim_eq_self s ht]

/-! ### Joining single-spaced pieces -/

theorem noSpaceRun_iff_chain (s : Str) :
    NoSpaceRun s ↔
      List.Chain' (fun a b => ¬ (isJsSpace a = true ∧ isJsSpace b = true)) s := by
  constructor
  · intro h
    induction s with
    | nil => exact List.chain'_nil
    | cons x r ih =>
      rw [List.chain'_cons']
      refine ⟨?_, ih (noSpaceRun_cons x r h)⟩
      intro y hy
      cases r with
      | nil => simp at hy
      | cons z r =>
        simp at hy; subst hy
        exact h x z ⟨[], r, by simp⟩
  · exact noSpaceRun_of_chain s

theorem singleSpaced_append (a b : Str) (ha : SingleSpaced a) (hb : SingleSpaced b)
    (hab : ∀ x ∈ a.getLast?, ∀ y ∈ b.head?, ¬ (isJsSpace x = true ∧ isJsSpace y = true)) :
    SingleSpaced (a ++ b) := by
  refine ⟨?_, ?_⟩
  · intro c hc
    rcases List.mem_append.mp hc with h | h
    · exact ha.1 c h
    · exact hb.1 c h
  · rw [noSpaceRun_iff_chain]
    exact List.Chain'.append ((noSpaceRun_iff_chain a).mp ha.2)
      ((noSpaceRun_iff_chain b).mp hb.2) hab

theorem trimmed_append (a b : Str) (ha : Trimmed a) (hb : Trimmed b) (hane : a ≠ [])
    (hbne : b ≠ []) : Trimmed (a ++ b) := by
  constructor
  · intro c hc
    rw [List.head?_append_of_ne_nil _ hane] at hc
    exact ha.1 c hc
  · intro c hc
    rw [List.getLast?_append_of_ne_nil _ hbne] at hc
    exact hb.2 c hc

theorem trim_pad (d : Str) (h : Trimmed d) :
    trim (' ' :: (d ++ [' '])) = d ∧ trim (' ' :: d) = d := by
  have hsp : isJsSpace ' ' = true := by decide
  have e1 : trim (' ' :: d) = d := by
    have : trim (' ' :: d) = trim d := by
      unfold trim
      rw [List.dropWhile_cons_of_pos hsp]
    rw [this, trim_eq_self d h]
  refine ⟨?_, e1⟩
  cases d with
  | nil => decide
  | cons x r =>
    unfold trim
    rw [List.dropWhile_cons_of_pos hsp]
    have hx : isJsSpace x = false := h.1 x rfl
    rw [List.cons_append, List.dropWhile_cons_of_neg (by simp [hx]), ← List.cons_append,
      List.reverse_append, List.reverse_singleton, List.singleton_append,
      List.dropWhile_cons_of_pos hsp, dropWhile_eq_self_of_head, List.reverse_reverse]
    intro c hc
    rw [List.head?_reverse] at hc
    exact h.2 c hc

/-! ### Locating the labels -/

theorem isPrefixOf_from_false (d rest : Str) (hne : d ≠ [])
    (h : ¬ "From".toList <:+: d) :
    List.isPrefixOf "From".toList (d ++ ' ' :: rest) = false := by
  rw [Bool.eq_false_iff]
  intro hp
  rcases d with _ | ⟨x, _ | ⟨y, _ | ⟨z, _ | ⟨w, d⟩⟩⟩⟩
  · exact hne rfl
  · simp [List.isPrefixOf] at hp
  · simp [List.isPrefixOf] at hp
  · simp [List.isPrefixOf] at hp
  · apply h
    simp [List.isPrefixOf] at hp
    obtain ⟨hx, hy, hz, hw⟩ := hp
    subst hx hy hz hw
    exact ⟨[], d, by simp⟩

theorem indexOf_from_after (d rest : Str) (h : ¬ "From".toList <:+: d) :
    indexOf (d ++ ' ' :: ("From".toList ++ rest)) "From".toList = some (d.length + 1) := by
  induction d with
  | nil => simp [indexOf, List.isPrefixOf]
  | cons x d ih =>
    have hd : ¬ "From".toList <:+: d := fun hi => h (hi.trans (List.suffix_cons x d).isInfix)
    have := isPrefixOf_from_false (x :: d) ("From".toList ++ rest) (by simp) h
    rw [List.cons_append] at this ⊢
    rw [indexOf, this, ih hd]
    simp

theorem indexOf_from_composite (d rest : Str) (h : ¬ "From".toList <:+: d) :
    indexOf ("Uploaded on : ".toList ++ (d ++ ' ' :: ("From".toList ++ rest))) "From".toList =
      some (d.length + 15) := by
  have := indexOf_from_after d rest h
  simp only [String.toList, List.cons_append, List.nil_append, indexOf, List.isPrefixOf,
    this] at this ⊢
  simp [this]

/-! ### The labelled layout -/

theorem composite_shape (d c : Str) :
    "Uploaded on : ".toList ++ d ++ " From : ".toList ++ c =
      "Uploaded on : ".toList ++ (d ++ ' ' :: ("From".toList ++ (" : ".toList ++ c))) := by
  simp [List.append_assoc]

theorem composite_split (d c : Str) :
    "Uploaded on : ".toList ++ (d ++ ' ' :: ("From".toList ++ (" : ".toList ++ c))) =
      ("Uploaded on : ".toList ++ d ++ [' ']) ++ ("From : ".toList ++ c) := by
  simp [List.append_assoc]

theorem noSpaceRun_of_collapse_eq (s : Str)
    (h : replaceAll (matchSpaces 2) [' '] s = s) : NoSpaceRun s := by
  rw [← h]
  exact noSpaceRun_of_chain _ (collapse_chain s)

theorem trimmed_of_trim_eq (s : Str) (h : trim s = s) : Trimmed s := by
  rw [← h]
  exact trim_trimmed s

theorem composite_normal (d c : Str) (hd : d ≠ []) (hc : c ≠ []) (hdn : Normalized d)
    (hcn : Normalized c) :
    Trimmed ("Uploaded on : ".toList ++ d ++ " From : ".toList ++ c) ∧
      SingleSpaced ("Uploaded on : ".toList ++ d ++ " From : ".toList ++ c) := by
  have hU : Trimmed "Uploaded on :".toList ∧ SingleSpaced "Uploaded on : ".toList := by
    exact ⟨trimmed_of_trim_eq _ (by decide), by decide,
      noSpaceRun_of_collapse_eq _ (by decide)⟩
  have hF : SingleSpaced " From : ".toList :=
    ⟨by decide, noSpaceRun_of_collapse_eq _ (by decide)⟩
  constructor
  · constructor
    · intro x hx
      simp only [String.toList, List.cons_append, List.head?_cons, Option.some.injEq] at hx
      subst hx; decide
    · intro x hx
      rw [List.getLast?_append_of_ne_nil _ hc] at hx
      exact hcn.1.2 x hx
  · have h1 : SingleSpaced ("Uploaded on : ".toList ++ d) := by
      apply singleSpaced_append _ _ hU.2 hdn.2.1
      intro x _ y hy
      have := hdn.1.1 y hy
      simp [this]
    have h2 : SingleSpaced ("Uploaded on : ".toList ++ d ++ " From : ".toList) := by
      apply singleSpaced_append _ _ h1 hF
      intro x hx y _
      rw [List.getLast?_append_of_ne_nil _ hd] at hx
      have := hdn.1.2 x hx
      simp [this]
    apply singleSpaced_append _ _ h2 hcn.2.1
    intro x _ y hy
    have := hcn.1.1 y hy
    simp [this]

/-- C3: for non-empty, already normalized texts `d` and `c`, where `d` does not contain
`From`, the cell text `Uploaded on : d From : c` is its own `caseInfoText`, and the
split yields `uploadedOn = d` and `fromCourt = c`. Normalized means trimmed,
single-spaced (all white space is single space characters) and free of noise tokens. -/
theorem splitComposite_labelled (d c : Str) (hd : d ≠ []) (hc : c ≠ [])
    (hdn : Normalized d) (hcn : Normalized c) (hF : ¬ "From".toList <:+: d) :
    caseInfoText ("Uploaded on : ".toList ++ d ++ " From : ".toList ++ c) =
        "Uploaded on : ".toList ++ d ++ " From : ".toList ++ c ∧
      splitComposite ("Uploaded on : ".toList ++ d ++ " From : ".toList ++ c) = (d, c) := by
  obtain ⟨ht, hs⟩ := composite_normal d c hd hc hdn hcn
  refine ⟨caseInfoText_eq_self _ ht hs, ?_⟩
  rw [composite_shape]
  have hlen : ("Uploaded on : ".toList ++ (d ++ ' ' :: ("From".toList ++ (" : ".toList ++ c)))).length
      = (d.length + 15) + (c.length + 7) := by
    simp; omega
  have hu : indexOf ("Uploaded on : ".toList ++ (d ++ ' ' :: ("From".toList ++ (" : ".toList ++ c))))
      "Uploaded on".toList = some 0 := by
    simp [indexOf, List.isPrefixOf]
  have hf := indexOf_from_composite d (" : ".toList ++ c) hF
  have hdate : substring ("Uploaded on : ".toList ++ (d ++ ' ' :: ("From".toList ++ (" : ".toList ++ c))))
      0 (d.length + 15) = "Uploaded on : ".toList ++ d ++ [' '] := by
    unfold substring
    rw [hlen, composite_split]
    simp only [Nat.zero_min, Nat.zero_le, Nat.min_eq_left, Nat.sub_zero, List.drop_zero]
    rw [Nat.min_eq_left (Nat.le_add_right _ _), Nat.max_eq_right (Nat.zero_le _)]
    exact List.take_left' (by simp)
  have hcourt : substring ("Uploaded on : ".toList ++ (d ++ ' ' :: ("From".toList ++ (" : ".toList ++ c))))
      (d.length + 15) ("Uploaded on : ".toList ++ (d ++ ' ' :: ("From".toList ++ (" : ".toList ++ c)))).length
      = "From : ".toList ++ c := by
    unfold substring
    rw [hlen, composite_split]
    simp only [Nat.min_self]
    rw [Nat.min_eq_left (Nat.le_add_right _ _), Nat.min_eq_left (Nat.le_add_right _ _),
      Nat.max_eq_right (Nat.le_add_right _ _), List.drop_left' (by simp)]
    apply List.take_of_length_le
    simp
  have hrep1 : replaceFirst (matchLabel "Uploaded on".toList) []
      ("Uploaded on : ".toList ++ d ++ [' ']) = ' ' :: (d ++ [' ']) := by
    simp [replaceFirst, matchLabel, matchLit, ciEq, isJsSpace]
  have hrep2 : replaceFirst (matchLabel "From".toList) [] ("From : ".toList ++ c) = ' ' :: c := by
    simp [replaceFirst, matchLabel, matchLit, ciEq, isJsSpace]
  unfold splitComposite
  simp only [hu, hf, hdate, hcourt, hrep1, hrep2, (trim_pad d hdn.1).1, (trim_pad c hcn.1).2,
    cleanText_eq_self d hdn, cleanText_eq_self c hcn]

theorem splitComposite_labelled_witness :
    splitComposite "Uploaded on : 08-SEP-25 From : High Court Division".toList =
      ("08-SEP-25".toList, "High Court Division".toList) :=
  (splitComposite_labelled "08-SEP-25".toList "High Court Division".toList (by decide)
    (by decide)
    ⟨trimmed_of_trim_eq _ (by decide), ⟨by decide, noSpaceRun_of_collapse_eq _ (by decide)⟩,
      by unfold NoiseFree; decide⟩
    ⟨trimmed_of_trim_eq _ (by decide), ⟨by decide, noSpaceRun_of_collapse_eq _ (by decide)⟩,
      by unfold NoiseFree; decide⟩
    (by rw [← includes_iff]; decide)).2

/-! ## Footer stamping -/

theorem addFooterToPdf_cases (env : Env) (buffer : Bytes) :
    addFooterToPdf env buffer = buffer ∨ hasPdfHeader (addFooterToPdf env buffer) = true ∨
      (addFooterToPdf env buffer).length ≤ 5 := by
  unfold addFooterToPdf
  split
  · exact Or.inl rfl
  · split
    · next savedBytes _ =>
      by_cases hlen : savedBytes.length > 5
      · rw [if_pos hlen]
        by_cases hh : startsWith (headerStr savedBytes) "%PDF-".toList = true
        · right; left
          simp only [hh, Bool.not_true, Bool.false_eq_true, if_false]
          exact hh
        · left
          have hh' : startsWith (headerStr savedBytes) "%PDF-".toList = false := by
            simpa using hh
          simp only [hh', Bool.not_false, if_true]
      · rw [if_neg hlen]
        right; right
        omega
    · exact Or.inl rfl

/-- C11 in the world `envShortSave`: the input begins with `%PDF-`, PDFLib saves five
zero bytes, and the test `savedBytes.length > 5` skips the signature check for them, so
`addFooterToPdf` returns five zero bytes, which neither begin with `%PDF-` nor equal
the input. -/
theorem addFooterToPdf_short_save_unchecked :
    hasPdfHeader pdfBytes = true ∧
      addFooterToPdf envShortSave pdfBytes = [0, 0, 0, 0, 0] ∧
      hasPdfHeader (addFooterToPdf envShortSave pdfBytes) = false ∧
      addFooterToPdf envShortSave pdfBytes ≠ pdfBytes := by
  decide

/-! ## Response status -/

theorem downloadClick_not_ok (env : Env) (st : AppState) (url : Str) (response : Response)
    (hurl : st.currentPdfUrl = some url) (hf : env.fetch url = some response)
    (hok : response.ok = false) :
    downloadClick env st = [downloadFailedAlert] ∨ downloadClick env st = [] := by
  unfold downloadClick
  rw [hurl]
  by_cases hu : url.isEmpty = true
  · right; simp only [hu, if_true]
  · left
    simp only [hu, hf, hok, Bool.not_false, if_true, Bool.false_eq_true, if_false]
    rfl

/-- C13 on the print path, in the world `envProxyDown`: the relay answers with status
500 and the text `Error fetching PDF`; the download action stops with its failure
message, but the print action does not look at the status, tests the signature of the
body and reports that the source file is not a valid PDF. In the world `envPdfNotOk`,
where a body that begins with `%PDF-` comes with a status outside 200-299, the print
action stamps and prints it. -/
theorem printClick_ignores_status :
    (proxyPdf (fun _ => UpstreamResult.throws)
        (some "https://www.supremecourt.gov.bd/a.pdf".toList)).ok = false ∧
      downloadClick envProxyDown (openedState envProxyDown) = [downloadFailedAlert] ∧
      printClick envProxyDown (openedState envProxyDown) = [cannotPrintAlert] ∧
      printClick envPdfNotOk (openedState envPdfNotOk) =
        [Effect.stamp pdfBytes, Effect.print pdfBytes] := by
  decide

/-! ## HTML pages in place of a document -/

theorem headerStr_of_hasPdfHeader (buffer : Bytes) (h : hasPdfHeader buffer = true) :
    headerStr buffer = "%PDF-".toList := by
  unfold hasPdfHeader startsWith at h
  have hp : "%PDF-".toList <+: headerStr buffer := List.isPrefixOf_iff_prefix.mp h
  have hlen : (headerStr buffer).length ≤ 5 := by
    unfold headerStr
    rw [List.length_map, List.length_take]
    exact Nat.min_le_left _ _
  have h5 : "%PDF-".toList.length = 5 := rfl
  have := hp.length_le
  exact (hp.eq_of_length (by omega)).symm

theorem hasPdfHeader_false_of_html (buffer : Bytes)
    (h : "<".toList <+: trim (headerStr buffer) ∨ "html".toList <:+: headerStr buffer) :
    hasPdfHeader buffer = false := by
  rw [Bool.eq_false_iff]
  intro hh
  rw [headerStr_of_hasPdfHeader buffer hh] at h
  rcases h with h | h
  · exact absurd (List.isPrefixOf_iff_prefix.mpr h) (by decide)
  · exact absurd ((includes_iff _ _).mpr h) (by decide)

theorem printClick_no_stamp_of_header (env : Env) (st : AppState) (url : Str)
    (response : Response) (hurl : st.currentPdfUrl = some url)
    (hf : env.fetch url = some response) (hh : hasPdfHeader response.body = false)
    (b : Bytes) : Effect.stamp b ∉ printClick env st := by
  unfold printClick
  rw [hurl]
  by_cases hu : url.isEmpty = true
  · simp only [hu, if_true]; exact List.not_mem_nil _
  · unfold hasPdfHeader at hh
    simp only [hu, hf, hh, Bool.not_false, if_true, Bool.false_eq_true, if_false]
    simp

/-- C12, as the script has it: when the response has a status in 200-299 and the first
five bytes of its body, read as text, start with `<` once trimmed or contain `html`,
the body does not begin with `%PDF-`, the download action shows the alert for a source
that returned HTML and nothing else, and neither the download nor the print action
calls `addFooterToPdf`. Nothing is said about the wording of the print alert. -/
theorem downloadClick_html_header (env : Env) (st : AppState) (url : Str)
    (response : Response) (hurl : st.currentPdfUrl = some url) (hne : url ≠ [])
    (hf : env.fetch url = some response) (hok : response.ok = true)
    (hhtml : "<".toList <+: trim (headerStr response.body) ∨
      "html".toList <:+: headerStr response.body) :
    hasPdfHeader response.body = false ∧
      downloadClick env st = [htmlErrorAlert] ∧
      (∀ b, Effect.stamp b ∉ downloadClick env st) ∧
      (∀ b, Effect.stamp b ∉ printClick env st) := by
  have hh := hasPdfHeader_false_of_html response.body hhtml
  have hd : downloadClick env st = [htmlErrorAlert] := by
    have hu : url.isEmpty = false := by
      cases url with
      | nil => exact absurd rfl hne
      | cons a r => rfl
    have hcond : (startsWith (trim (headerStr response.body)) "<".toList ||
        includes (headerStr response.body) "html".toList) = true := by
      rw [Bool.or_eq_true, includes_iff]
      unfold startsWith
      rw [ List.isPrefixOf_iff_prefix]
      exact hhtml
    unfold hasPdfHeader at hh
    unfold downloadClick
    rw [hurl]
    simp only [hu, hf, hok, hh, hcond, Bool.not_true, Bool.not_false, if_true,
      Bool.false_eq_true, if_false]
    rfl
  refine ⟨hh, hd, ?_, fun b => printClick_no_stamp_of_header env st url response hurl hf hh b⟩
  intro b
  rw [hd]
  simp [htmlErrorAlert]

theorem downloadClick_html_header_witness :
    hasPdfHeader htmlBytes = false ∧
      downloadClick envHtml (openedState envHtml) = [htmlErrorAlert] ∧
      (∀ b, Effect.stamp b ∉ downloadClick envHtml (openedState envHtml)) ∧
      (∀ b, Effect.stamp b ∉ printClick envHtml (openedState envHtml)) :=
  downloadClick_html_header envHtml (openedState envHtml)
    "/proxy-pdf?url=https%3A%2F%2Fwww.supremecourt.gov.bd%2Fa.pdf".toList
    ⟨true, some "application/pdf".toList, htmlBytes⟩ (by decide) (by decide) (by decide)
    (by decide) (Or.inl (List.isPrefixOf_iff_prefix.mp (by decide)))

/-- C12 fails as stated. Each of the three bodies is an HTML page. The print action
reports `<html>` as an invalid PDF, without the HTML sub-classification. The download
action reports a page that starts with five line feeds as an invalid PDF, because it
looks at the first five bytes only. The download action reports a page that comes with
a status outside 200-299 as a failed download. -/
theorem html_page_misreported :
    (IsHtmlPage htmlBytes ∧
      printClick envHtml (openedState envHtml) = [cannotPrintAlert]) ∧
    (IsHtmlPage paddedHtmlBytes ∧
      downloadClick envPaddedHtml (openedState envPaddedHtml) = [invalidPdfAlert]) ∧
    downloadClick envHtmlNotOk (openedState envHtmlNotOk) = [downloadFailedAlert] := by
  refine ⟨⟨?_, by decide⟩, ⟨?_, by decide⟩, by decide⟩
  · show ((bodyText htmlBytes).dropWhile isJsSpace).head? = some '<'
    decide
  · show ((bodyText paddedHtmlBytes).dropWhile isJsSpace).head? = some '<'
    decide

/-! ## Paginated rendering -/

theorem renderLoop_all_pages (pdf : PdfDocument) :
    ∀ (count start : Nat) (acc : List ContainerItem),
      (∀ k, start ≤ k → k < start + count →
        ∃ p, pdf.getPage k = some p ∧ p.renderOk = true) →
      ∃ out, renderLoop pdf count start acc = some (acc ++ out) ∧ out.length = count ∧
        ∀ i, i < count → ∃ p, pdf.getPage (start + i) = some p ∧
          out[i]? = some (ContainerItem.canvas (start + i) p.width p.height) := by
  intro count
  induction count with
  | zero =>
    intro start acc _
    exact ⟨[], by simp [renderLoop], rfl, fun i hi => absurd hi (Nat.not_lt_zero i)⟩
  | succ n ih =>
    intro start acc h
    obtain ⟨p, hp, hr⟩ := h start (Nat.le_refl _) (by omega)
    obtain ⟨out, ho, hl, hi⟩ := ih (start + 1)
      (acc ++ [ContainerItem.canvas start p.width p.height])
      (fun k hk1 hk2 => h k (by omega) (by omega))
    refine ⟨ContainerItem.canvas start p.width p.height :: out, ?_, by simp [hl], ?_⟩
    · rw [renderLoop, hp]
      simp only [hr, if_true]
      rw [ho, List.append_assoc, List.singleton_append]
    · intro i hlt
      cases i with
      | zero => exact ⟨p, hp, by simp⟩
      | succ j =>
        obtain ⟨q, hq, hj⟩ := hi j (by omega)
        refine ⟨q, ?_, ?_⟩
        · rw [← hq]; congr 1; omega
        · rw [List.getElem?_cons_succ, hj]
          congr 2; omega

/-- C14: when the URL serves a document that pdf.js decodes and every page 1..n of it
loads and renders, `renderPDF` leaves exactly n items in the display area, the item at
position i being the canvas of page i + 1; and the display area after `openPdfView` is
that list, whatever it held before. -/
theorem renderPDF_all_pages (env : Env) (url : Str) (response : Response)
    (pdf : PdfDocument) (hf : env.fetch url = some response)
    (hd : env.getDocument response = some pdf)
    (hpages : ∀ k, 1 ≤ k → k ≤ pdf.numPages →
      ∃ p, pdf.getPage k = some p ∧ p.renderOk = true) :
    (renderPDF env url).1.length = pdf.numPages ∧
      (∀ i, i < pdf.numPages → ∃ p, pdf.getPage (i + 1) = some p ∧
        (renderPDF env url).1[i]? = some (ContainerItem.canvas (i + 1) p.width p.height)) ∧
      (∀ (st : AppState) (title target : Str),
        "/proxy-pdf?url=".toList ++ encodeURIComponent target = url →
        (openPdfView env st title target).1.pdfContainer = (renderPDF env url).1) := by
  obtain ⟨out, ho, hl, hi⟩ := renderLoop_all_pages pdf pdf.numPages 1 []
    (fun k hk1 hk2 => hpages k hk1 (by omega))
  have hr : (renderPDF env url).1 = out := by
    unfold renderPDF
    simp only [hf, hd, ho, List.nil_append]
  refine ⟨by rw [hr, hl], ?_, ?_⟩
  · intro i hlt
    obtain ⟨p, hp, hg⟩ := hi i hlt
    refine ⟨p, ?_, ?_⟩
    · rw [← hp]; congr 1; omega
    · rw [hr, hg]; congr 2; omega
  · intro st title target ht
    subst ht
    rfl

theorem renderPDF_all_pages_witness :
    (openedState envPdf).pdfContainer =
      [ContainerItem.canvas 1 918 1188, ContainerItem.canvas 2 918 1188] ∧
    (renderPDF envPdf
      "/proxy-pdf?url=https%3A%2F%2Fwww.supremecourt.gov.bd%2Fa.pdf".toList).1.length = 2 :=
  ⟨by decide,
    (renderPDF_all_pages envPdf
      "/proxy-pdf?url=https%3A%2F%2Fwww.supremecourt.gov.bd%2Fa.pdf".toList
      ⟨true, some "application/pdf".toList, pdfBytes⟩ twoPages rfl rfl
      (fun k _ _ => ⟨⟨918, 1188, true⟩, rfl, rfl⟩)).1⟩

/-! ## The current document -/

/-- C15 fails as stated: after a document is opened and the back-to-results button is
clicked, the current document is still set, and the print and download actions act on
it. -/
theorem current_document_survives_back :
    (backToResultsClick (openedState envPdf)).currentPdfUrl =
        some "/proxy-pdf?url=https%3A%2F%2Fwww.supremecourt.gov.bd%2Fa.pdf".toList ∧
      printClick envPdf (backToResultsClick (openedState envPdf)) =
        [Effect.stamp pdfBytes, Effect.print pdfBytes] ∧
      downloadClick envPdf (backToResultsClick (openedState envPdf)) =
        [Effect.stamp pdfBytes,
          Effect.download pdfBytes "Digital_BLD_Judgment_CivilAppeal12_0.pdf".toList] := by
  decide

/-- C15, as the script has it: `openPdfView` writes the URL and the title of the
current document together; the back-to-results action empties the display area and
shows the results view but leaves both variables as they were; and while no document
has been opened the print and download actions do nothing. -/
theorem current_document_lifecycle (env : Env) (st : AppState) (title url : Str) :
    ((openPdfView env st title url).1.currentPdfUrl =
        some ("/proxy-pdf?url=".toList ++ encodeURIComponent url) ∧
      (openPdfView env st title url).1.currentPdfTitle =
        (if title.isEmpty then "Judgment".toList else title)) ∧
    ((backToResultsClick st).currentPdfUrl = st.currentPdfUrl ∧
      (backToResultsClick st).currentPdfTitle = st.currentPdfTitle ∧
      (backToResultsClick st).pdfContainer = [] ∧
      (backToResultsClick st).view = View.results) ∧
    (st.currentPdfUrl = none → printClick env st = [] ∧ downloadClick env st = []) := by
  refine ⟨⟨rfl, rfl⟩, ⟨rfl, rfl, rfl, rfl⟩, ?_⟩
  intro h
  unfold printClick downloadClick
  rw [h]
  exact ⟨rfl, rfl⟩

theorem current_document_lifecycle_witness :
    printClick envPdf AppState.initial = [] ∧ downloadClick envPdf AppState.initial = [] :=
  (current_document_lifecycle envPdf AppState.initial [] []).2.2 rfl

end CaseSearch
